import Mathlib

deriving instance DecidableEq for Except

/-!
Shallow embedding of the paper-classification pipeline (`latest.py`) and
proofs of its specified properties.

External collaborators (SciBERT embedder, Pathway vector store, RoBERTa QA
model) are modelled as oracle parameters: the vector-store query is a
function from the indexed reference set and a candidate paper to either a
neighbor list or an error, and the span-extraction step is a function from
paper content and target conference to either the list of raw extracted
answer strings or an error.  Everything the source computes itself —
score aggregation, the publishability threshold, the per-conference means
and best-conference argmax, rationale filtering and deduplication, the
confusion-count metrics, and k-fold splitting — is embedded directly.
Similarity scores and metric values are modelled as rationals.  String
primitives (`strip`, `split`, `lower`, slicing) are modelled over the
character list of a string.
-/

/-- A paper, as loaded by `load_dataset`.  `path` is used as the opaque
identifier (the source uses `paper.path.stem` as `paper_id`). -/
structure Paper where
  content : String
  path : String
  is_reference : Bool
  label : Option String
  conference : Option String
  deriving Repr, DecidableEq

/-- One neighbor returned by the vector-store query: a similarity score
plus the indexed metadata fields the classifier reads. -/
structure Neighbor where
  score : ℚ
  label : Option String
  conference : Option String
  deriving Repr, DecidableEq

/-- A record appended to `results` by `classify_papers`. -/
structure ClassificationResult where
  paper_id : String
  publishable : Nat
  conference : String
  rationale : String
  confidence_scores : List (String × ℚ)
  deriving Repr, DecidableEq

/-- `self.conferences` from `PaperClassifier.__init__`. -/
def conferences : List String := ["TMLR", "CVPR", "EMNLP", "NeurIPS", "KDD"]

/-- Python `str.strip()` on a character list: drop whitespace from both
ends. -/
def trimChars (l : List Char) : List Char :=
  ((l.dropWhile Char.isWhitespace).reverse.dropWhile Char.isWhitespace).reverse

/-- Python `str.strip()`. -/
def pyStrip (s : String) : String := ⟨trimChars s.data⟩

/-- Python `str.split('.')` on a character list: the chunks between the
period characters, keeping empty chunks (so the result is always
nonempty). -/
def splitOnDot : List Char → List (List Char)
  | [] => [[]]
  | c :: rest =>
    if c = '.' then [] :: splitOnDot rest
    else
      match splitOnDot rest with
      | h :: t => (c :: h) :: t
      | [] => [[c]]

/-- Python `str.lower()` on a character list. -/
def lowerChars (l : List Char) : List Char := l.map Char.toLower

/-- `sum(1 for a, b in zip(str1, str2) if a == b)`: matching positions over
the zipped common length of two character lists. -/
def countCommon : List Char → List Char → Nat
  | a :: as, b :: bs => (if a = b then 1 else 0) + countCommon as bs
  | _, _ => 0

/-- `_similar_strings(str1, str2, threshold)`: `False` when either string is
shorter than 10 characters; otherwise the positional character-match count
over the lowercased zipped common length, divided by the longer length,
compared strictly against the threshold. -/
def similar_strings (str1 str2 : String) (threshold : ℚ) : Bool :=
  if str1.length < 10 || str2.length < 10 then false
  else
    decide ((countCommon (lowerChars str1.data) (lowerChars str2.data) : ℚ) /
      ((max str1.length str2.length : ℕ) : ℚ) > threshold)

/-- The deduplication loop of `_generate_rationale`: an answer is appended
to `unique_answers` only when it is similar (at the default threshold 0.7)
to none of the answers already kept. -/
def dedupAnswers (answers : List String) : List String :=
  answers.foldl
    (fun unique ans =>
      if unique.any (fun existing => similar_strings ans existing ((7 : ℚ) / 10)) then unique
      else unique ++ [ans]) []

/-- The answer filter of `_generate_rationale`: the stripped answer is kept
exactly when the stripped length is strictly greater than 10 (the `answer`
truthiness test is subsumed, since a string of length > 10 is nonempty). -/
def filterAnswers (raw : List String) : List String :=
  raw.filterMap (fun a => if 10 < (pyStrip a).length then some (pyStrip a) else none)

/-- The title derivation of `_generate_rationale`: the first 1000
characters, newlines replaced by spaces, stripped, then the text before
the first period. -/
def derivedTitle (content : String) : String :=
  let preview := trimChars ((content.data.take 1000).map (fun c => if c = '\n' then ' ' else c))
  ⟨(splitOnDot preview).headD []⟩

/-- `_generate_rationale`, with the three raw QA answers supplied by the
oracle: filter the answers, and either join up to two deduplicated
survivors after the conference sentence stem, or fall back to the
templated sentence built from the derived title. -/
def generateRationale (raw : List String) (content conference : String) : String :=
  let answers := filterAnswers raw
  if answers.isEmpty then
    "This paper appears relevant to " ++ conference ++ " based on its focus on " ++
      derivedTitle content
  else
    "This paper is relevant to " ++ conference ++ " because " ++
      String.intercalate ". " ((dedupAnswers answers).take 2)

/-- `np.mean(scores) if scores else 0`, over rationals. -/
def listMean (l : List ℚ) : ℚ :=
  if l.isEmpty then 0 else l.sum / (l.length : ℚ)

/-- The scores collected into `publishable_scores`: scores of neighbors
whose metadata label is `"Publishable"`. -/
def publishableScores (nbrs : List Neighbor) : List ℚ :=
  (nbrs.filter (fun n => n.label == some "Publishable")).map Neighbor.score

/-- The scores collected into `conference_scores[conf]`: scores of
publishable neighbors whose (truthy) conference tag equals `conf`. -/
def conferenceScores (nbrs : List Neighbor) (conf : String) : List ℚ :=
  (nbrs.filter (fun n =>
    n.label == some "Publishable" &&
      (match n.conference with
       | some c => c != "" && c == conf
       | none => false))).map Neighbor.score

/-- A publishable neighbor whose truthy conference tag is not one of the
five conference keys: appending its score to `conference_scores` raises a
`KeyError` inside the per-paper `try` block. -/
def badConferenceNeighbor (n : Neighbor) : Bool :=
  n.label == some "Publishable" &&
    (match n.conference with
     | some c => c != "" && !(conferences.contains c)
     | none => false)

/-- `conf_avg_scores`, in insertion order of the `self.conferences` dict
comprehension. -/
def confAvgScores (nbrs : List Neighbor) : List (String × ℚ) :=
  conferences.map (fun c => (c, listMean (conferenceScores nbrs c)))

/-- One step of Python `max(..., key=lambda x: x[1])`: the running best is
replaced only when the new item's value is strictly greater, so the first
maximal item wins. -/
def pickMax (best p : String × ℚ) : String × ℚ :=
  if p.2 > best.2 then p else best

/-- `max(conf_avg_scores.items(), key=lambda x: x[1])`: first maximal
pair.  The empty case never occurs (there are five conferences). -/
def argmaxFirstPair : List (String × ℚ) → String × ℚ
  | [] => ("", 0)
  | x :: xs => xs.foldl pickMax x

/-- The oracle type for `self.vector_client.query` seen through
`_get_similar_papers`: given the currently indexed reference set and a
candidate paper, either the neighbor list or the detail of a raised
exception. -/
def QueryOracle : Type := List Paper → Paper → Except String (List Neighbor)

/-- The oracle type for the span-extraction QA model inside
`_generate_rationale`: given the paper content and the target conference,
either the raw decoded answer strings or the detail of a raised
exception. -/
def QaOracle : Type := String → String → Except String (List String)

/-- The body of the per-paper `try` block of `classify_papers`: query the
neighbors, aggregate the scores, decide publishability, and either build
the publishable record (running rationale generation) or the
not-publishable record.  An exception anywhere inside surfaces as
`Except.error` with its detail. -/
def classifyPaperE (query : QueryOracle) (qa : QaOracle)
    (reference_papers : List Paper) (paper : Paper) : Except String ClassificationResult :=
  match query reference_papers paper with
  | Except.error e => Except.error e
  | Except.ok nbrs =>
    if nbrs.any badConferenceNeighbor then Except.error "KeyError"
    else if listMean (publishableScores nbrs) > (7 : ℚ) / 10 then
      match qa paper.content (argmaxFirstPair (confAvgScores nbrs)).1 with
      | Except.error e => Except.error e
      | Except.ok raw =>
        Except.ok
          { paper_id := paper.path
            publishable := 1
            conference := (argmaxFirstPair (confAvgScores nbrs)).1
            rationale := generateRationale raw paper.content (argmaxFirstPair (confAvgScores nbrs)).1
            confidence_scores := [("publishability", listMean (publishableScores nbrs)),
              ("conference", (argmaxFirstPair (confAvgScores nbrs)).2)] }
    else
      Except.ok
        { paper_id := paper.path
          publishable := 0
          conference := "na"
          rationale := "na"
          confidence_scores := [("publishability", listMean (publishableScores nbrs))] }

/-- The record appended by the `except` arm of `classify_papers`. -/
def errorRecord (paper : Paper) (e : String) : ClassificationResult :=
  { paper_id := paper.path
    publishable := 0
    conference := "error"
    rationale := e
    confidence_scores := [] }

/-- One iteration of the `classify_papers` loop: the `try` body's record,
or the `except` arm's error record. -/
def classifyPaper (query : QueryOracle) (qa : QaOracle)
    (reference_papers : List Paper) (paper : Paper) : ClassificationResult :=
  match classifyPaperE query qa reference_papers paper with
  | Except.ok r => r
  | Except.error e => errorRecord paper e

/-- `classify_papers`: one record appended per input paper, in input
order (the reference papers are indexed once up front; the oracle reads
them). -/
def classify_papers (query : QueryOracle) (qa : QaOracle)
    (reference_papers : List Paper) (papers : List Paper) : List ClassificationResult :=
  papers.map (classifyPaper query qa reference_papers)

/-- The confusion counters accumulated by the `calculate_metrics` loop. -/
structure Counts where
  tp : Nat
  fp : Nat
  tn : Nat
  fn : Nat
  conference_correct : Nat
  total_publishable : Nat
  deriving Repr, DecidableEq

/-- One iteration of the `calculate_metrics` counting loop over
`zip(validation_papers, results)`. -/
def tallyStep (c : Counts) (paper : Paper) (result : ClassificationResult) : Counts :=
  let actual := paper.label == some "Publishable"
  let predicted := result.publishable == 1
  let c1 :=
    if predicted && actual then
      if paper.conference == some result.conference then
        { c with tp := c.tp + 1, conference_correct := c.conference_correct + 1 }
      else
        { c with tp := c.tp + 1 }
    else if predicted && !actual then { c with fp := c.fp + 1 }
    else if !predicted && !actual then { c with tn := c.tn + 1 }
    else { c with fn := c.fn + 1 }
  if actual then { c1 with total_publishable := c1.total_publishable + 1 } else c1

/-- The full counting loop of `calculate_metrics`. -/
def tallyAll (pairs : List (Paper × ClassificationResult)) : Counts :=
  pairs.foldl (fun c pr => tallyStep c pr.1 pr.2) ⟨0, 0, 0, 0, 0, 0⟩

/-- The dictionary returned by `calculate_metrics`. -/
structure Metrics where
  accuracy : ℚ
  precision : ℚ
  recall_score : ℚ
  f1_score : ℚ
  conference_accuracy : ℚ
  true_positives : Nat
  false_positives : Nat
  true_negatives : Nat
  false_negatives : Nat
  total_papers : Nat
  deriving Repr, DecidableEq

/-- `calculate_metrics`: classify the validation papers against the given
reference set, tally the confusion counts, and derive the metrics.  The
accuracy division by `len(validation_papers)` is unguarded, so an empty
validation list raises `ZeroDivisionError`; the precision, recall, F1 and
conference-accuracy divisions are each guarded by a positivity test on
their denominator. -/
def calculate_metrics (query : QueryOracle) (qa : QaOracle)
    (reference_papers validation_papers : List Paper) : Except String Metrics :=
  let results := classify_papers query qa reference_papers validation_papers
  let c := tallyAll (validation_papers.zip results)
  if validation_papers.length = 0 then Except.error "ZeroDivisionError"
  else
    let accuracy : ℚ := ((c.tp : ℚ) + (c.tn : ℚ)) / (validation_papers.length : ℚ)
    let precision : ℚ :=
      if c.tp + c.fp > 0 then (c.tp : ℚ) / ((c.tp : ℚ) + (c.fp : ℚ)) else 0
    let recall_score : ℚ :=
      if c.tp + c.fn > 0 then (c.tp : ℚ) / ((c.tp : ℚ) + (c.fn : ℚ)) else 0
    let f1 : ℚ :=
      if precision + recall_score > 0 then 2 * (precision * recall_score) / (precision + recall_score) else 0
    let conference_accuracy : ℚ :=
      if c.total_publishable > 0 then (c.conference_correct : ℚ) / (c.total_publishable : ℚ)
      else 0
    Except.ok
      { accuracy := accuracy
        precision := precision
        recall_score := recall_score
        f1_score := f1
        conference_accuracy := conference_accuracy
        true_positives := c.tp
        false_positives := c.fp
        true_negatives := c.tn
        false_negatives := c.fn
        total_papers := validation_papers.length }

/-- `KFold` fold sizes for `n` samples and `k` folds: the first
`n mod k` folds get `n div k + 1` samples, the rest `n div k`. -/
def foldSizes (n k : Nat) : List Nat :=
  (List.range k).map (fun i => n / k + if i < n % k then 1 else 0)

/-- Split the shuffled index list into consecutive chunks of the given
sizes: the validation index blocks of the folds. -/
def splitFolds : List Nat → List Nat → List (List Nat)
  | _, [] => []
  | l, s :: rest => l.take s :: splitFolds (l.drop s) rest

/-- The training indices of a fold: `arange(n)` restricted to indices not
in the fold's validation block (sklearn's complement mask). -/
def foldTrain (n : Nat) (val : List Nat) : List Nat :=
  (List.range n).filter (fun j => decide (¬ j ∈ val))

/-- Look up a list of papers by index, as `reference_papers[idx]`. -/
def papersAt (refs : List Paper) (idxs : List Nat) : List Paper :=
  idxs.filterMap (fun j => refs[j]?)

/-- The per-fold loop of `cross_validate`: for each validation index
block, re-point the reference set at the fold's training partition and
run `calculate_metrics` on the fold's validation partition. -/
def collectMetrics (query : QueryOracle) (qa : QaOracle) (refs : List Paper) :
    List (List Nat) → Except String (List Metrics)
  | [] => Except.ok []
  | v :: rest =>
    match calculate_metrics query qa (papersAt refs (foldTrain refs.length v))
        (papersAt refs v) with
    | Except.error e => Except.error e
    | Except.ok m =>
      match collectMetrics query qa refs rest with
      | Except.error e => Except.error e
      | Except.ok ms => Except.ok (m :: ms)

/-- The dictionary returned by `cross_validate`. -/
structure CVResult where
  fold_metrics : List Metrics
  avg_accuracy : ℚ
  avg_f1_score : ℚ
  avg_conference_accuracy : ℚ
  deriving Repr, DecidableEq

/-- `cross_validate(k_folds)`: split the shuffled indices of the
reference set into `k_folds` validation blocks, collect per-fold
metrics, and average accuracy, F1 and conference accuracy across folds
with `np.mean`.  The seeded `KFold` shuffle is abstracted as the
`shuffled` index list. -/
def cross_validate (query : QueryOracle) (qa : QaOracle) (refs : List Paper)
    (k_folds : Nat) (shuffled : List Nat) : Except String CVResult :=
  match collectMetrics query qa refs (splitFolds shuffled (foldSizes refs.length k_folds)) with
  | Except.error e => Except.error e
  | Except.ok ms =>
    Except.ok
      { fold_metrics := ms
        avg_accuracy := listMean (ms.map Metrics.accuracy)
        avg_f1_score := listMean (ms.map Metrics.f1_score)
        avg_conference_accuracy := listMean (ms.map Metrics.conference_accuracy) }

/-! ## Concrete instances used by witnesses and counterexamples -/

/-- An oracle whose queries return an empty neighbor list. -/
def wQueryEmpty : QueryOracle := fun _ _ => Except.ok []

/-- An oracle whose queries raise an exception with detail `"boom"`. -/
def wQueryBoom : QueryOracle := fun _ _ => Except.error "boom"

/-- An oracle whose queries return one perfectly similar publishable CVPR
neighbor. -/
def wQueryPub : QueryOracle :=
  fun _ _ => Except.ok [{ score := 1, label := some "Publishable", conference := some "CVPR" }]

/-- A QA oracle extracting no answers. -/
def wQaEmpty : QaOracle := fun _ _ => Except.ok []

/-- A candidate paper. -/
def wPaper : Paper :=
  { content := "T.", path := "p0", is_reference := false, label := none, conference := none }

/-- A publishable CVPR reference paper. -/
def wPaperPub : Paper :=
  { content := "U.", path := "p1", is_reference := true, label := some "Publishable",
    conference := some "CVPR" }


/-! ## Helper lemmas -/

theorem countCommon_comm : ∀ (a b : List Char), countCommon a b = countCommon b a
  | [], [] => rfl
  | [], _ :: _ => rfl
  | _ :: _, [] => rfl
  | a :: as, b :: bs => by
    simp only [countCommon, countCommon_comm as bs]
    congr 1
    simp [eq_comm]

theorem similar_strings_comm (s1 s2 : String) (t : ℚ) :
    similar_strings s1 s2 t = similar_strings s2 s1 t := by
  unfold similar_strings
  rw [Bool.or_comm, countCommon_comm, Nat.max_comm]


/-- The accumulator of the deduplication fold stays pairwise
non-similar. -/
theorem dedup_foldl_pairwise (l : List String) :
    ∀ acc : List String,
      acc.Pairwise (fun x y => similar_strings x y ((7 : ℚ) / 10) = false) →
      (l.foldl
        (fun unique ans =>
          if unique.any (fun existing => similar_strings ans existing ((7 : ℚ) / 10)) then unique
          else unique ++ [ans]) acc).Pairwise
        (fun x y => similar_strings x y ((7 : ℚ) / 10) = false) := by
  induction l with
  | nil => intro acc hacc; exact hacc
  | cons a t ih =>
    intro acc hacc
    simp only [List.foldl_cons]
    by_cases h : acc.any (fun existing => similar_strings a existing ((7 : ℚ) / 10))
    · rw [if_pos h]; exact ih acc hacc
    · rw [if_neg h]
      refine ih (acc ++ [a]) ?_
      rw [List.pairwise_append]
      refine ⟨hacc, List.pairwise_singleton _ _, ?_⟩
      intro x hx y hy
      rw [List.mem_singleton] at hy
      subst hy
      rw [List.any_eq_true] at h
      push_neg at h
      have hxy := h x hx
      rw [← similar_strings_comm]
      exact Bool.eq_false_iff.mpr hxy

/-- The deduplication output never shrinks the accumulator. -/
theorem dedup_foldl_length_le (l : List String) :
    ∀ acc : List String,
      acc.length ≤ (l.foldl
        (fun unique ans =>
          if unique.any (fun existing => similar_strings ans existing ((7 : ℚ) / 10)) then unique
          else unique ++ [ans]) acc).length := by
  induction l with
  | nil => intro acc; exact Nat.le_refl _
  | cons a t ih =>
    intro acc
    simp only [List.foldl_cons]
    by_cases h : acc.any (fun existing => similar_strings a existing ((7 : ℚ) / 10))
    · rw [if_pos h]; exact ih acc
    · rw [if_neg h]
      calc acc.length ≤ (acc ++ [a]).length := by simp
        _ ≤ _ := ih (acc ++ [a])

theorem dedupAnswers_ne_nil {l : List String} (h : l ≠ []) : dedupAnswers l ≠ [] := by
  match l with
  | [] => exact absurd rfl h
  | a :: t =>
    unfold dedupAnswers
    simp only [List.foldl_cons]
    rw [if_neg (by simp)]
    rw [List.nil_append]
    intro hcontra
    have := dedup_foldl_length_le t [a]
    rw [hcontra] at this
    simp at this

theorem listMean_nil : listMean [] = 0 := rfl

theorem listMean_of_ne_nil {l : List ℚ} (h : l ≠ []) :
    listMean l = l.sum / (l.length : ℚ) := by
  unfold listMean
  rw [if_neg (by simpa using h)]

/-- Both branches of `_generate_rationale` start with a sentence stem far
longer than two characters, so the rationale is never the string
`"na"`. -/
theorem generateRationale_ne_na (raw : List String) (content conference : String) :
    generateRationale raw content conference ≠ "na" := by
  unfold generateRationale
  have hna : ("na" : String).length = 2 := by decide
  show (if (filterAnswers raw).isEmpty = true then _ else _) ≠ _
  split
  · intro h
    have h2 := congrArg String.length h
    simp only [String.length_append, hna] at h2
    have e1 : ("This paper appears relevant to " : String).length = 31 := by decide
    rw [e1] at h2
    omega
  · intro h
    have h2 := congrArg String.length h
    simp only [String.length_append, hna] at h2
    have e1 : ("This paper is relevant to " : String).length = 26 := by decide
    rw [e1] at h2
    omega

/-- Characterization of Python's `max(..., key=...)` accumulator loop:
either the initial best survives and dominates every later item, or the
result is an item that strictly beats the initial best and every item
before it, and is not beaten by any item after it. -/
theorem foldl_pickMax_spec :
    ∀ (xs : List (String × ℚ)) (best : String × ℚ),
      (xs.foldl pickMax best = best ∧ ∀ y ∈ xs, y.2 ≤ best.2) ∨
      (∃ l₁ l₂, xs = l₁ ++ (xs.foldl pickMax best) :: l₂ ∧
        best.2 < (xs.foldl pickMax best).2 ∧
        (∀ y ∈ l₁, y.2 < (xs.foldl pickMax best).2) ∧
        (∀ y ∈ l₂, y.2 ≤ (xs.foldl pickMax best).2)) := by
  intro xs
  induction xs with
  | nil => intro best; left; exact ⟨rfl, by simp⟩
  | cons x t ih =>
    intro best
    simp only [List.foldl_cons]
    by_cases hx : x.2 > best.2
    · have hstep : pickMax best x = x := by simp [pickMax, hx]
      rw [hstep]
      rcases ih x with ⟨heq, hall⟩ | ⟨l₁, l₂, hsplit, hlt, hl₁, hl₂⟩
      · right
        refine ⟨[], t, ?_, ?_, ?_, ?_⟩
        · rw [heq]; simp
        · rw [heq]; exact hx
        · simp
        · rw [heq]; exact hall
      · right
        refine ⟨x :: l₁, l₂, ?_, ?_, ?_, hl₂⟩
        · rw [List.cons_append, ← hsplit]
        · exact lt_trans hx hlt
        · intro y hy
          rcases List.mem_cons.mp hy with hy | hy
          · rw [hy]; exact hlt
          · exact hl₁ y hy
    · have hstep : pickMax best x = best := by simp [pickMax, hx]
      rw [hstep]
      rcases ih best with ⟨heq, hall⟩ | ⟨l₁, l₂, hsplit, hlt, hl₁, hl₂⟩
      · left
        refine ⟨heq, ?_⟩
        intro y hy
        rcases List.mem_cons.mp hy with hy | hy
        · rw [hy]; exact le_of_not_lt hx
        · exact hall y hy
      · right
        refine ⟨x :: l₁, l₂, ?_, hlt, ?_, hl₂⟩
        · rw [List.cons_append, ← hsplit]
        · intro y hy
          rcases List.mem_cons.mp hy with hy | hy
          · rw [hy]; exact lt_of_le_of_lt (le_of_not_lt hx) hlt
          · exact hl₁ y hy

/-- When no later item strictly beats the initial best, Python's `max`
keeps the initial item. -/
theorem foldl_pickMax_of_all_le :
    ∀ (xs : List (String × ℚ)) (best : String × ℚ),
      (∀ y ∈ xs, y.2 ≤ best.2) → xs.foldl pickMax best = best := by
  intro xs
  induction xs with
  | nil => intro best _; rfl
  | cons x t ih =>
    intro best hall
    simp only [List.foldl_cons]
    have hstep : pickMax best x = best := by
      have := hall x (List.mem_cons_self x t)
      simp [pickMax, not_lt_of_le this]
    rw [hstep]
    exact ih best (fun y hy => hall y (List.mem_cons_of_mem x hy))

/-- `argmaxFirstPair` on a nonempty list picks an element attaining the
maximum value, with every strictly earlier element strictly below it. -/
theorem argmaxFirstPair_spec (x : String × ℚ) (xs : List (String × ℚ)) :
    ∃ l₁ l₂, x :: xs = l₁ ++ (argmaxFirstPair (x :: xs)) :: l₂ ∧
      (∀ y ∈ l₁, y.2 < (argmaxFirstPair (x :: xs)).2) ∧
      (∀ y ∈ x :: xs, y.2 ≤ (argmaxFirstPair (x :: xs)).2) := by
  simp only [argmaxFirstPair]
  rcases foldl_pickMax_spec xs x with ⟨heq, hall⟩ | ⟨l₁, l₂, hsplit, hlt, hl₁, hl₂⟩
  · refine ⟨[], xs, ?_, ?_, ?_⟩
    · rw [heq]; simp
    · simp
    · intro y hy
      rw [heq]
      rcases List.mem_cons.mp hy with hy | hy
      · rw [hy]
      · exact hall y hy
  · refine ⟨x :: l₁, l₂, ?_, ?_, ?_⟩
    · rw [List.cons_append, ← hsplit]
    · intro y hy
      rcases List.mem_cons.mp hy with hy | hy
      · rw [hy]; exact hlt
      · exact hl₁ y hy
    · intro y hy
      rcases List.mem_cons.mp hy with hy | hy
      · rw [hy]; exact le_of_lt hlt
      · rw [hsplit] at hy
        rcases List.mem_append.mp hy with hy | hy
        · exact le_of_lt (hl₁ y hy)
        · rcases List.mem_cons.mp hy with hy | hy
          · rw [hy]
          · exact hl₂ y hy

theorem argmaxFirstPair_head_of_all_le (x : String × ℚ) (xs : List (String × ℚ))
    (h : ∀ y ∈ xs, y.2 ≤ x.2) : argmaxFirstPair (x :: xs) = x :=
  foldl_pickMax_of_all_le xs x h

/-! ## Claim theorems -/

/-- C9: the answer-similarity predicate is symmetric: for all strings `a`
and `b` and any fixed threshold, `_similar_strings(a, b)` equals
`_similar_strings(b, a)`, because the matched-position count over the
zipped prefix and the denominator `max(len(a), len(b))` are both
symmetric in their arguments. -/
theorem similar_strings_symmetric (a b : String) (t : ℚ) :
    similar_strings a b t = similar_strings b a t :=
  similar_strings_comm a b t

/-- C6 (amended): the survivors of the rationale deduplication are
pairwise non-similar, so two extracted spans that both have length ≥ 10
and a positional character-match ratio strictly greater than 0.7 collapse
to one; the ratio test is applied only when both strings have length
≥ 10, so a span of length < 10 is never considered similar to another.
(The source compares the ratio strictly against 0.7, so a ratio of
exactly 0.7 does not collapse — see the counterexample.) -/
theorem dedup_collapses_strictly_similar :
    (∀ answers : List String,
      (dedupAnswers answers).Pairwise
        (fun x y => similar_strings x y ((7 : ℚ) / 10) = false)) ∧
    (∀ (a b : String) (t : ℚ), a.length < 10 ∨ b.length < 10 →
      similar_strings a b t = false) := by
  constructor
  · intro answers
    exact dedup_foldl_pairwise answers [] List.Pairwise.nil
  · intro a b t h
    unfold similar_strings
    rcases h with h | h
    · rw [if_pos (by simp [h])]
    · rw [if_pos (by simp [h])]

section

attribute [local semireducible] Rat.mul Rat.inv Rat.add Rat.sub

/-- Witness for C6: a pair with match ratio 15/20 > 0.7 collapses to one
surviving span, and a short span is never similar. -/
theorem dedup_collapses_strictly_similar_witness :
    (dedupAnswers ["abcdefghijklmnopqrsz", "abcdefghijklmnzzzzzz"]).Pairwise
      (fun x y => similar_strings x y ((7 : ℚ) / 10) = false) ∧
    similar_strings "short" "abcdefghijklmnzzzzzz" ((7 : ℚ) / 10) = false :=
  ⟨dedup_collapses_strictly_similar.1 _,
   dedup_collapses_strictly_similar.2 "short" "abcdefghijklmnzzzzzz" ((7 : ℚ) / 10)
     (Or.inl (by decide))⟩

/-- Counterexample to C6 as stated: two spans of length 20 with a
positional match ratio of exactly 0.7 (14 of 20 positions, so the
claim's "at least 0.7" applies) are not deemed similar by the strict
comparison, both survive deduplication, and both appear in the final
rationale. -/
theorem dedup_boundary_cex :
    ("abcdefghijklmnopqrst" : String).length = 20 ∧
    ("abcdefghijklmnzzzzzz" : String).length = 20 ∧
    (countCommon (lowerChars ("abcdefghijklmnopqrst" : String).data)
        (lowerChars ("abcdefghijklmnzzzzzz" : String).data) : ℚ) /
      ((max ("abcdefghijklmnopqrst" : String).length
        ("abcdefghijklmnzzzzzz" : String).length : ℕ) : ℚ) = (7 : ℚ) / 10 ∧
    similar_strings "abcdefghijklmnopqrst" "abcdefghijklmnzzzzzz" ((7 : ℚ) / 10) = false ∧
    dedupAnswers ["abcdefghijklmnopqrst", "abcdefghijklmnzzzzzz"] =
      ["abcdefghijklmnopqrst", "abcdefghijklmnzzzzzz"] ∧
    generateRationale ["abcdefghijklmnopqrst", "abcdefghijklmnzzzzzz"] "x." "CVPR" =
      "This paper is relevant to CVPR because abcdefghijklmnopqrst. abcdefghijklmnzzzzzz" :=
  ⟨by decide, by decide, by decide, by decide, by decide, by decide⟩

/-- Counterexample to C7 as stated: an answer whose trimmed length is
exactly 10 — "not shorter than 10", so the claim says it is kept — is
discarded by the source's strict `> 10` test, and the rationale falls
back to the templated sentence. -/
theorem rationale_length_boundary_cex :
    (pyStrip "abcdefghij").length = 10 ∧
    filterAnswers ["abcdefghij"] = [] ∧
    generateRationale ["abcdefghij"] "Some content. More text." "CVPR" =
      "This paper appears relevant to CVPR based on its focus on Some content" :=
  ⟨by decide, by decide, by decide⟩

end

/-- C7 (amended): an extracted answer is kept if and only if its trimmed
length is strictly greater than 10 characters (the source's test is
`len(answer.strip()) > 10`, so a trimmed length of exactly 10 is
discarded — see the counterexample); when at least one answer survives
(deduplication never empties a nonempty answer list), the rationale is
the prefixed sentence joining up to 2 surviving unique answers; when no
answer survives, the rationale is the templated sentence referencing the
derived title. -/
theorem rationale_filter_and_join (raw : List String) (content conference : String) :
    (∀ s, s ∈ filterAnswers raw ↔ ∃ a ∈ raw, s = pyStrip a ∧ 10 < s.length) ∧
    (filterAnswers raw = [] →
      generateRationale raw content conference =
        "This paper appears relevant to " ++ conference ++ " based on its focus on " ++
          derivedTitle content) ∧
    (filterAnswers raw ≠ [] →
      dedupAnswers (filterAnswers raw) ≠ [] ∧
      generateRationale raw content conference =
        "This paper is relevant to " ++ conference ++ " because " ++
          String.intercalate ". " ((dedupAnswers (filterAnswers raw)).take 2)) := by
  refine ⟨?_, ?_, ?_⟩
  · intro s
    simp only [filterAnswers, List.mem_filterMap]
    constructor
    · rintro ⟨a, ha, hf⟩
      by_cases hl : 10 < (pyStrip a).length
      · rw [if_pos hl] at hf
        injection hf with hf
        exact ⟨a, ha, hf.symm, hf ▸ hl⟩
      · rw [if_neg hl] at hf
        cases hf
    · rintro ⟨a, ha, hs, hl⟩
      subst hs
      exact ⟨a, ha, if_pos hl⟩
  · intro h
    unfold generateRationale
    show (if (filterAnswers raw).isEmpty = true then _ else _) = _
    rw [if_pos (by rw [h]; rfl)]
  · intro h
    refine ⟨dedupAnswers_ne_nil h, ?_⟩
    unfold generateRationale
    show (if (filterAnswers raw).isEmpty = true then _ else _) = _
    rw [if_neg (by simpa using h)]

/-- Witness for C7: a raw answer of trimmed length 21 survives and the
rationale is the prefixed joined sentence. -/
theorem rationale_filter_and_join_witness :
    dedupAnswers (filterAnswers ["  this is a long answer  "]) ≠ [] ∧
    generateRationale ["  this is a long answer  "] "C." "KDD" =
      "This paper is relevant to KDD because " ++
        String.intercalate ". " ((dedupAnswers (filterAnswers ["  this is a long answer  "])).take 2) :=
  (rationale_filter_and_join ["  this is a long answer  "] "C." "KDD").2.2 (by decide)

/-- C1: for a candidate classified without an exception, the decision is
publishable exactly when the arithmetic mean of the similarity scores of
the neighbors labeled `"Publishable"` is strictly greater than 0.7; a
mean of exactly 0.7 yields not publishable, and with zero publishable
neighbors the mean is 0 and the candidate is not publishable. -/
theorem classify_publishability_threshold (query : QueryOracle) (qa : QaOracle)
    (refs : List Paper) (paper : Paper) (nbrs : List Neighbor) (r : ClassificationResult)
    (hq : query refs paper = Except.ok nbrs)
    (hr : classifyPaperE query qa refs paper = Except.ok r) :
    (r.publishable = 1 ↔ listMean (publishableScores nbrs) > (7 : ℚ) / 10) ∧
    (listMean (publishableScores nbrs) = (7 : ℚ) / 10 → r.publishable = 0) ∧
    (publishableScores nbrs = [] →
      listMean (publishableScores nbrs) = 0 ∧ r.publishable = 0) := by
  unfold classifyPaperE at hr
  rw [hq] at hr
  simp only [] at hr
  by_cases hbad : nbrs.any badConferenceNeighbor
  · rw [if_pos hbad] at hr; cases hr
  · rw [if_neg hbad] at hr
    by_cases havg : listMean (publishableScores nbrs) > (7 : ℚ) / 10
    · rw [if_pos havg] at hr
      cases hqa : qa paper.content (argmaxFirstPair (confAvgScores nbrs)).1 with
      | error e => rw [hqa] at hr; cases hr
      | ok raw =>
        rw [hqa] at hr
        injection hr with hr
        subst hr
        refine ⟨⟨fun _ => havg, fun _ => rfl⟩, ?_, ?_⟩
        · intro heq
          rw [heq] at havg
          exact absurd havg (lt_irrefl _)
        · intro hemp
          rw [hemp, listMean_nil] at havg
          norm_num at havg
    · rw [if_neg havg] at hr
      injection hr with hr
      subst hr
      refine ⟨⟨?_, ?_⟩, fun _ => rfl, fun hemp => ⟨by rw [hemp, listMean_nil], rfl⟩⟩
      · intro h; cases h
      · intro h; exact absurd h havg

section

attribute [local semireducible] Rat.mul Rat.inv Rat.add Rat.sub

/-- Witness for C1: a candidate with zero neighbors gets the
not-publishable record. -/
theorem classify_publishability_threshold_witness :
    ((0 : Nat) = 1 ↔ listMean (publishableScores []) > (7 : ℚ) / 10) ∧
    (listMean (publishableScores []) = (7 : ℚ) / 10 → (0 : Nat) = 0) ∧
    (publishableScores [] = [] → listMean (publishableScores []) = 0 ∧ (0 : Nat) = 0) :=
  classify_publishability_threshold wQueryEmpty wQaEmpty [] wPaper []
    { paper_id := "p0", publishable := 0, conference := "na", rationale := "na",
      confidence_scores := [("publishability", listMean (publishableScores []))] }
    rfl rfl

end

/-- C2: `classify_papers` returns exactly one record per input paper, in
input order, and a paper whose per-paper computation raises an exception
yields the record with `conference = "error"`, the error detail as the
rationale, and empty confidence scores, without affecting the records of
the other papers. -/
theorem classify_papers_one_record_per_paper (query : QueryOracle) (qa : QaOracle)
    (refs papers : List Paper) :
    (classify_papers query qa refs papers).length = papers.length ∧
    (∀ i : Nat, (classify_papers query qa refs papers)[i]? =
      (papers[i]?).map (classifyPaper query qa refs)) ∧
    (∀ (paper : Paper) (e : String), classifyPaperE query qa refs paper = Except.error e →
      classifyPaper query qa refs paper =
        { paper_id := paper.path, publishable := 0, conference := "error", rationale := e,
          confidence_scores := [] }) := by
  refine ⟨List.length_map _ _, ?_, ?_⟩
  · intro i
    simp [classify_papers]
  · intro paper e h
    unfold classifyPaper
    rw [h]
    rfl

/-- Witness for C2: a query exception yields the error record. -/
theorem classify_papers_one_record_per_paper_witness :
    (classify_papers wQueryBoom wQaEmpty [] [wPaper]).length = [wPaper].length ∧
    classifyPaper wQueryBoom wQaEmpty [] wPaper =
      { paper_id := wPaper.path, publishable := 0, conference := "error", rationale := "boom",
        confidence_scores := [] } :=
  ⟨(classify_papers_one_record_per_paper wQueryBoom wQaEmpty [] [wPaper]).1,
   (classify_papers_one_record_per_paper wQueryBoom wQaEmpty [] [wPaper]).2.2 wPaper "boom" rfl⟩

/-- Counterexample to C3 as stated: a per-paper failure produces a record
with `conference = "error"`, which differs from `"na"` while
`publishable` is 0, violating the invariant
`conference != "na" implies publishable == true`. -/
theorem classification_invariant_cex :
    classify_papers wQueryBoom wQaEmpty [] [wPaper] =
      [{ paper_id := "p0", publishable := 0, conference := "error", rationale := "boom",
         confidence_scores := [] }] ∧
    ("error" : String) ≠ "na" ∧ (0 : Nat) ≠ 1 :=
  ⟨rfl, by decide, by decide⟩

/-- C3 (amended): every record satisfies
`rationale == "na" implies publishable == false`, and every record not
produced by the error path (`conference != "error"`) satisfies
`conference != "na" implies publishable == true`; error-path records
violate the latter (see the counterexample). -/
theorem classification_invariant_amended (query : QueryOracle) (qa : QaOracle)
    (refs : List Paper) (paper : Paper) :
    ((classifyPaper query qa refs paper).rationale = "na" →
      (classifyPaper query qa refs paper).publishable = 0) ∧
    ((classifyPaper query qa refs paper).conference ≠ "error" →
      (classifyPaper query qa refs paper).conference ≠ "na" →
      (classifyPaper query qa refs paper).publishable = 1) := by
  unfold classifyPaper
  cases hE : classifyPaperE query qa refs paper with
  | error e => exact ⟨fun _ => rfl, fun h1 _ => absurd rfl h1⟩
  | ok r =>
    unfold classifyPaperE at hE
    cases hq : query refs paper with
    | error e => rw [hq] at hE; cases hE
    | ok nbrs =>
      rw [hq] at hE
      simp only [] at hE
      by_cases hbad : nbrs.any badConferenceNeighbor
      · rw [if_pos hbad] at hE; cases hE
      · rw [if_neg hbad] at hE
        by_cases havg : listMean (publishableScores nbrs) > (7 : ℚ) / 10
        · rw [if_pos havg] at hE
          cases hqa : qa paper.content (argmaxFirstPair (confAvgScores nbrs)).1 with
          | error e => rw [hqa] at hE; cases hE
          | ok raw =>
            rw [hqa] at hE
            injection hE with hE
            subst hE
            exact ⟨fun hna => absurd hna (generateRationale_ne_na raw paper.content _),
              fun _ _ => rfl⟩
        · rw [if_neg havg] at hE
          injection hE with hE
          subst hE
          exact ⟨fun _ => rfl, fun _ h2 => absurd rfl h2⟩

section

attribute [local semireducible] Rat.mul Rat.inv Rat.add Rat.sub

/-- Witness for C3 (amended): the not-publishable record has rationale
`"na"` and is indeed marked not publishable. -/
theorem classification_invariant_amended_witness :
    (classifyPaper wQueryEmpty wQaEmpty [] wPaper).publishable = 0 :=
  (classification_invariant_amended wQueryEmpty wQaEmpty [] wPaper).1 rfl

end

/-- C4: for a publishable candidate, the chosen conference is the first
entry of `conf_avg_scores` (built in the enum order
TMLR, CVPR, EMNLP, NeurIPS, KDD) attaining the maximum mean score:
every strictly earlier entry has a strictly smaller mean and no entry
has a larger one; in particular, when every conference mean is 0 the
chosen conference is the first enum entry, TMLR. -/
theorem best_conference_first_max (query : QueryOracle) (qa : QaOracle)
    (refs : List Paper) (paper : Paper) (nbrs : List Neighbor) (r : ClassificationResult)
    (hq : query refs paper = Except.ok nbrs)
    (hr : classifyPaperE query qa refs paper = Except.ok r)
    (hp : r.publishable = 1) :
    (∃ v l₁ l₂, confAvgScores nbrs = l₁ ++ (r.conference, v) :: l₂ ∧
      (∀ y ∈ l₁, y.2 < v) ∧ (∀ y ∈ confAvgScores nbrs, y.2 ≤ v)) ∧
    ((∀ y ∈ confAvgScores nbrs, y.2 = 0) → r.conference = "TMLR") := by
  unfold classifyPaperE at hr
  rw [hq] at hr
  simp only [] at hr
  by_cases hbad : nbrs.any badConferenceNeighbor
  · rw [if_pos hbad] at hr; cases hr
  · rw [if_neg hbad] at hr
    by_cases havg : listMean (publishableScores nbrs) > (7 : ℚ) / 10
    · rw [if_pos havg] at hr
      cases hqa : qa paper.content (argmaxFirstPair (confAvgScores nbrs)).1 with
      | error e => rw [hqa] at hr; cases hr
      | ok raw =>
        rw [hqa] at hr
        injection hr with hr
        subst hr
        constructor
        · obtain ⟨l₁, l₂, hsplit, hl₁, hall⟩ :=
            argmaxFirstPair_spec ("TMLR", listMean (conferenceScores nbrs "TMLR"))
              [("CVPR", listMean (conferenceScores nbrs "CVPR")),
               ("EMNLP", listMean (conferenceScores nbrs "EMNLP")),
               ("NeurIPS", listMean (conferenceScores nbrs "NeurIPS")),
               ("KDD", listMean (conferenceScores nbrs "KDD"))]
          exact ⟨(argmaxFirstPair (confAvgScores nbrs)).2, l₁, l₂, hsplit, hl₁, hall⟩
        · intro hz
          have hle : ∀ y ∈ [("CVPR", listMean (conferenceScores nbrs "CVPR")),
              ("EMNLP", listMean (conferenceScores nbrs "EMNLP")),
              ("NeurIPS", listMean (conferenceScores nbrs "NeurIPS")),
              ("KDD", listMean (conferenceScores nbrs "KDD"))],
              y.2 ≤ ("TMLR", listMean (conferenceScores nbrs "TMLR")).2 := by
            intro y hy
            have hy0 : y.2 = 0 := hz y (List.mem_cons_of_mem _ hy)
            have hx0 : listMean (conferenceScores nbrs "TMLR") = 0 :=
              hz _ (List.mem_cons_self _ _)
            rw [hy0]
            exact le_of_eq hx0.symm
          have := argmaxFirstPair_head_of_all_le
            ("TMLR", listMean (conferenceScores nbrs "TMLR"))
            [("CVPR", listMean (conferenceScores nbrs "CVPR")),
             ("EMNLP", listMean (conferenceScores nbrs "EMNLP")),
             ("NeurIPS", listMean (conferenceScores nbrs "NeurIPS")),
             ("KDD", listMean (conferenceScores nbrs "KDD"))] hle
          show (argmaxFirstPair (confAvgScores nbrs)).1 = "TMLR"
          rw [show confAvgScores nbrs =
            ("TMLR", listMean (conferenceScores nbrs "TMLR")) ::
              [("CVPR", listMean (conferenceScores nbrs "CVPR")),
               ("EMNLP", listMean (conferenceScores nbrs "EMNLP")),
               ("NeurIPS", listMean (conferenceScores nbrs "NeurIPS")),
               ("KDD", listMean (conferenceScores nbrs "KDD"))] from rfl, this]
    · rw [if_neg havg] at hr
      injection hr with hr
      subst hr
      cases hp

section

attribute [local semireducible] Rat.mul Rat.inv Rat.add Rat.sub

/-- Witness for C4: one perfect publishable CVPR neighbor makes CVPR the
first maximal conference. -/
theorem best_conference_first_max_witness :
    (∃ v l₁ l₂,
      confAvgScores [{ score := 1, label := some "Publishable", conference := some "CVPR" }] =
        l₁ ++ (("CVPR" : String), v) :: l₂ ∧
      (∀ y ∈ l₁, y.2 < v) ∧
      (∀ y ∈ confAvgScores
        [{ score := 1, label := some "Publishable", conference := some "CVPR" }], y.2 ≤ v)) ∧
    ((∀ y ∈ confAvgScores
        [{ score := 1, label := some "Publishable", conference := some "CVPR" }], y.2 = 0) →
      ("CVPR" : String) = "TMLR") :=
  best_conference_first_max wQueryPub wQaEmpty [] wPaper
    [{ score := 1, label := some "Publishable", conference := some "CVPR" }] _ rfl rfl rfl

end

/-- The source's F1 guard `precision + recall > 0` coincides with "not
both zero" for nonnegative precision and recall. -/
theorem f1_guard_eq (p r : ℚ) (hp : 0 ≤ p) (hr : 0 ≤ r) :
    (if p + r > 0 then 2 * (p * r) / (p + r) else 0) =
    (if p = 0 ∧ r = 0 then 0 else 2 * (p * r) / (p + r)) := by
  by_cases h : p = 0 ∧ r = 0
  · obtain ⟨h1, h2⟩ := h
    subst h1
    subst h2
    norm_num
  · rw [if_neg h, if_pos]
    have hsum : p + r ≠ 0 := by
      intro hs
      exact h ⟨le_antisymm (by linarith) hp, le_antisymm (by linarith) hr⟩
    exact lt_of_le_of_ne (add_nonneg hp hr) (Ne.symm hsum)

/-- A `> 0` guard on a natural denominator is the mirror image of the
`= 0` guard. -/
theorem pos_guard_eq_zero_guard (n : Nat) (x : ℚ) :
    (if n > 0 then x else 0) = (if n = 0 then 0 else x) := by
  rcases Nat.eq_zero_or_pos n with h | h
  · subst h
    norm_num
  · rw [if_pos h, if_neg (Nat.pos_iff_ne_zero.mp h)]

/-- C5 (amended): for every non-empty validation set, `calculate_metrics`
returns metrics satisfying accuracy = (TP+TN)/total, precision =
TP/(TP+FP) or 0 on zero denominator, recall = TP/(TP+FN) or 0, F1 = the
harmonic mean of precision and recall or 0 when both are 0, and
conference accuracy = conferenceCorrect/totalActuallyPublishable or 0
when there are no actually-publishable papers, with no division-by-zero
fault.  (On an empty validation set the unguarded accuracy division
faults — see the counterexample.) -/
theorem calculate_metrics_formulas (query : QueryOracle) (qa : QaOracle)
    (refs val : List Paper) (hne : val ≠ []) :
    ∀ c : Counts, c = tallyAll (val.zip (classify_papers query qa refs val)) →
    ∃ m, calculate_metrics query qa refs val = Except.ok m ∧
      m.accuracy = ((c.tp : ℚ) + (c.tn : ℚ)) / (val.length : ℚ) ∧
      m.precision = (if c.tp + c.fp = 0 then 0 else (c.tp : ℚ) / ((c.tp : ℚ) + (c.fp : ℚ))) ∧
      m.recall_score = (if c.tp + c.fn = 0 then 0 else (c.tp : ℚ) / ((c.tp : ℚ) + (c.fn : ℚ))) ∧
      m.f1_score = (if m.precision = 0 ∧ m.recall_score = 0 then 0
        else 2 * (m.precision * m.recall_score) / (m.precision + m.recall_score)) ∧
      m.conference_accuracy = (if c.total_publishable = 0 then 0
        else (c.conference_correct : ℚ) / (c.total_publishable : ℚ)) := by
  intro c hc
  unfold calculate_metrics
  simp only []
  rw [← hc]
  rw [if_neg (fun h => hne (List.length_eq_zero.mp h))]
  have hp : (0 : ℚ) ≤ (if c.tp + c.fp > 0 then (c.tp : ℚ) / ((c.tp : ℚ) + (c.fp : ℚ)) else 0) := by
    split
    · positivity
    · exact le_refl 0
  have hr : (0 : ℚ) ≤ (if c.tp + c.fn > 0 then (c.tp : ℚ) / ((c.tp : ℚ) + (c.fn : ℚ)) else 0) := by
    split
    · positivity
    · exact le_refl 0
  exact ⟨_, rfl, rfl, pos_guard_eq_zero_guard _ _, pos_guard_eq_zero_guard _ _,
    f1_guard_eq _ _ hp hr, pos_guard_eq_zero_guard _ _⟩

/-- Counterexample to C5 as stated: on the empty validation set the
unguarded accuracy division `len(validation_papers)` raises
`ZeroDivisionError`, so "for every validation set ... no
division-by-zero fault propagates" fails. -/
theorem calculate_metrics_empty_cex :
    calculate_metrics wQueryEmpty wQaEmpty [] [] = Except.error "ZeroDivisionError" := rfl

section

attribute [local semireducible] Rat.mul Rat.inv Rat.add Rat.sub

/-- Witness for C5 (amended): the singleton validation set yields the
stated metric formulas. -/
theorem calculate_metrics_formulas_witness :
    ∃ m, calculate_metrics wQueryEmpty wQaEmpty [] [wPaper] = Except.ok m ∧
      m.accuracy = (((tallyAll ([wPaper].zip
          (classify_papers wQueryEmpty wQaEmpty [] [wPaper]))).tp : ℚ) +
        ((tallyAll ([wPaper].zip
          (classify_papers wQueryEmpty wQaEmpty [] [wPaper]))).tn : ℚ)) /
        (([wPaper] : List Paper).length : ℚ) ∧
      m.precision = (if (tallyAll ([wPaper].zip
            (classify_papers wQueryEmpty wQaEmpty [] [wPaper]))).tp +
          (tallyAll ([wPaper].zip
            (classify_papers wQueryEmpty wQaEmpty [] [wPaper]))).fp = 0 then 0
        else ((tallyAll ([wPaper].zip
            (classify_papers wQueryEmpty wQaEmpty [] [wPaper]))).tp : ℚ) /
          (((tallyAll ([wPaper].zip
            (classify_papers wQueryEmpty wQaEmpty [] [wPaper]))).tp : ℚ) +
           ((tallyAll ([wPaper].zip
            (classify_papers wQueryEmpty wQaEmpty [] [wPaper]))).fp : ℚ))) ∧
      m.recall_score = (if (tallyAll ([wPaper].zip
            (classify_papers wQueryEmpty wQaEmpty [] [wPaper]))).tp +
          (tallyAll ([wPaper].zip
            (classify_papers wQueryEmpty wQaEmpty [] [wPaper]))).fn = 0 then 0
        else ((tallyAll ([wPaper].zip
            (classify_papers wQueryEmpty wQaEmpty [] [wPaper]))).tp : ℚ) /
          (((tallyAll ([wPaper].zip
            (classify_papers wQueryEmpty wQaEmpty [] [wPaper]))).tp : ℚ) +
           ((tallyAll ([wPaper].zip
            (classify_papers wQueryEmpty wQaEmpty [] [wPaper]))).fn : ℚ))) ∧
      m.f1_score = (if m.precision = 0 ∧ m.recall_score = 0 then 0
        else 2 * (m.precision * m.recall_score) / (m.precision + m.recall_score)) ∧
      m.conference_accuracy = (if (tallyAll ([wPaper].zip
            (classify_papers wQueryEmpty wQaEmpty [] [wPaper]))).total_publishable = 0 then 0
        else ((tallyAll ([wPaper].zip
            (classify_papers wQueryEmpty wQaEmpty [] [wPaper]))).conference_correct : ℚ) /
          ((tallyAll ([wPaper].zip
            (classify_papers wQueryEmpty wQaEmpty [] [wPaper]))).total_publishable : ℚ)) :=
  calculate_metrics_formulas wQueryEmpty wQaEmpty [] [wPaper] (by simp)
    (tallyAll ([wPaper].zip (classify_papers wQueryEmpty wQaEmpty [] [wPaper]))) rfl

end

/-- C10: `calculate_metrics` requires a non-empty validation list: on an
empty list the unconditional accuracy division raises a division-by-zero
fault instead of degrading to 0, while on any non-empty list the
remaining (guarded) divisions let the computation return metrics. -/
theorem calculate_metrics_requires_nonempty :
    (∀ (query : QueryOracle) (qa : QaOracle) (refs : List Paper),
      calculate_metrics query qa refs [] = Except.error "ZeroDivisionError") ∧
    (∀ (query : QueryOracle) (qa : QaOracle) (refs val : List Paper), val ≠ [] →
      ∃ m, calculate_metrics query qa refs val = Except.ok m) := by
  constructor
  · intro query qa refs
    rfl
  · intro query qa refs val hne
    unfold calculate_metrics
    simp only []
    rw [if_neg (fun h => hne (List.length_eq_zero.mp h))]
    exact ⟨_, rfl⟩

/-- Witness for C10: the empty list faults, a singleton list returns
metrics. -/
theorem calculate_metrics_requires_nonempty_witness :
    calculate_metrics wQueryBoom wQaEmpty [] [] = Except.error "ZeroDivisionError" ∧
    ∃ m, calculate_metrics wQueryBoom wQaEmpty [] [wPaper] = Except.ok m :=
  ⟨calculate_metrics_requires_nonempty.1 wQueryBoom wQaEmpty [],
   calculate_metrics_requires_nonempty.2 wQueryBoom wQaEmpty [] [wPaper] (by simp)⟩

theorem range_sum_div_mod (q r : Nat) :
    ∀ k : Nat, ((List.range k).map (fun i => q + if i < r then 1 else 0)).sum =
      k * q + min k r := by
  intro k
  induction k with
  | zero => simp
  | succ n ih =>
    rw [List.range_succ, List.map_append, List.sum_append]
    simp only [List.map_cons, List.map_nil, List.sum_cons, List.sum_nil]
    rw [ih, Nat.succ_mul]
    by_cases h : n < r
    · rw [if_pos h]
      omega
    · rw [if_neg h]
      omega

theorem foldSizes_length (n k : Nat) : (foldSizes n k).length = k := by
  simp [foldSizes]

theorem foldSizes_sum_le (n k : Nat) : (foldSizes n k).sum ≤ n := by
  unfold foldSizes
  rw [range_sum_div_mod]
  have h1 : min k (n % k) ≤ n % k := Nat.min_le_right _ _
  have h2 : k * (n / k) + n % k = n := Nat.div_add_mod n k
  omega

theorem foldSizes_pos (n k : Nat) (hk : 0 < k) (hkn : k ≤ n) :
    ∀ s ∈ foldSizes n k, 0 < s := by
  intro s hs
  unfold foldSizes at hs
  rw [List.mem_map] at hs
  obtain ⟨i, _, rfl⟩ := hs
  have : 1 ≤ n / k := (Nat.one_le_div_iff hk).mpr hkn
  split <;> omega

theorem splitFolds_length : ∀ (sizes l : List Nat), (splitFolds l sizes).length = sizes.length
  | [], _ => rfl
  | s :: rest, l => by
    simp only [splitFolds, List.length_cons]
    rw [splitFolds_length rest (l.drop s)]

theorem splitFolds_mem_subset :
    ∀ (sizes l v : List Nat), v ∈ splitFolds l sizes → ∀ x ∈ v, x ∈ l
  | [], _, _, hv => by cases hv
  | s :: rest, l, v, hv => by
    simp only [splitFolds, List.mem_cons] at hv
    rcases hv with hv | hv
    · subst hv
      intro x hx
      exact List.take_subset s l hx
    · intro x hx
      exact List.drop_subset s l (splitFolds_mem_subset rest (l.drop s) v hv x hx)

theorem splitFolds_ne_nil :
    ∀ (sizes l : List Nat), (∀ s ∈ sizes, 0 < s) → sizes.sum ≤ l.length →
      ∀ v ∈ splitFolds l sizes, v ≠ []
  | [], _, _, _, _, hv => by cases hv
  | s :: rest, l, hpos, hsum, v, hv => by
    simp only [splitFolds, List.mem_cons] at hv
    simp only [List.sum_cons] at hsum
    rcases hv with hv | hv
    · subst hv
      have hs : 0 < s := hpos s (List.mem_cons_self _ _)
      intro h0
      have hlen : (l.take s).length = 0 := by rw [h0]; rfl
      rw [List.length_take] at hlen
      omega
    · refine splitFolds_ne_nil rest (l.drop s)
        (fun x hx => hpos x (List.mem_cons_of_mem _ hx)) ?_ v hv
      rw [List.length_drop]
      omega

theorem papersAt_ne_nil {refs : List Paper} {v : List Nat} (hv : v ≠ [])
    (hlt : ∀ j ∈ v, j < refs.length) : papersAt refs v ≠ [] := by
  unfold papersAt
  cases v with
  | nil => exact absurd rfl hv
  | cons j t =>
    intro h0
    rw [List.filterMap_cons] at h0
    have hj := List.getElem?_eq_getElem (hlt j (List.mem_cons_self j t))
    rw [hj] at h0
    cases h0

theorem foldTrain_not_mem (n : Nat) (v : List Nat) : ∀ x ∈ foldTrain n v, x ∉ v := by
  intro x hx
  unfold foldTrain at hx
  rw [List.mem_filter] at hx
  exact of_decide_eq_true hx.2

theorem calculate_metrics_ok (query : QueryOracle) (qa : QaOracle)
    (refs val : List Paper) (hne : val ≠ []) :
    ∃ m, calculate_metrics query qa refs val = Except.ok m := by
  unfold calculate_metrics
  simp only []
  rw [if_neg (fun h => hne (List.length_eq_zero.mp h))]
  exact ⟨_, rfl⟩

theorem collectMetrics_ok (query : QueryOracle) (qa : QaOracle) (refs : List Paper) :
    ∀ folds : List (List Nat), (∀ v ∈ folds, papersAt refs v ≠ []) →
      ∃ ms, collectMetrics query qa refs folds = Except.ok ms ∧ ms.length = folds.length := by
  intro folds
  induction folds with
  | nil => intro _; exact ⟨[], rfl, rfl⟩
  | cons v rest ih =>
    intro h
    obtain ⟨m, hm⟩ := calculate_metrics_ok query qa
      (papersAt refs (foldTrain refs.length v)) (papersAt refs v)
      (h v (List.mem_cons_self _ _))
    obtain ⟨ms, hms, hlen⟩ := ih (fun u hu => h u (List.mem_cons_of_mem _ hu))
    refine ⟨m :: ms, ?_, by simp [hlen]⟩
    unfold collectMetrics
    rw [hm, hms]

theorem listMean_eq_sum_div {l : List ℚ} {k : Nat} (hk : 0 < k) (h : l.length = k) :
    listMean l = l.sum / (k : ℚ) := by
  have hne : l ≠ [] := by
    intro h0
    subst h0
    simp at h
    omega
  rw [listMean_of_ne_nil hne, h]

/-- C8: with at least as many reference documents as folds,
`cross_validate` returns exactly `k` fold-metric records, each averaged
metric (accuracy, F1 score, conference accuracy) is the unweighted
arithmetic mean of that metric across the `k` folds, and each fold's
validation index block is disjoint from its training index block.  The
seeded `KFold` shuffle is abstracted as any index sequence over the
reference set. -/
theorem cross_validate_folds_spec (query : QueryOracle) (qa : QaOracle) (refs : List Paper)
    (k : Nat) (shuffled : List Nat) (hk : 0 < k) (hkn : k ≤ refs.length)
    (hlen : shuffled.length = refs.length) (hmem : ∀ x ∈ shuffled, x < refs.length) :
    ∃ res, cross_validate query qa refs k shuffled = Except.ok res ∧
      res.fold_metrics.length = k ∧
      res.avg_accuracy = (res.fold_metrics.map Metrics.accuracy).sum / (k : ℚ) ∧
      res.avg_f1_score = (res.fold_metrics.map Metrics.f1_score).sum / (k : ℚ) ∧
      res.avg_conference_accuracy =
        (res.fold_metrics.map Metrics.conference_accuracy).sum / (k : ℚ) ∧
      (∀ v ∈ splitFolds shuffled (foldSizes refs.length k),
        ∀ x ∈ foldTrain refs.length v, x ∉ v) := by
  have hpos := foldSizes_pos refs.length k hk hkn
  have hsum : (foldSizes refs.length k).sum ≤ shuffled.length := by
    rw [hlen]
    exact foldSizes_sum_le refs.length k
  have hne : ∀ v ∈ splitFolds shuffled (foldSizes refs.length k), papersAt refs v ≠ [] := by
    intro v hv
    exact papersAt_ne_nil (splitFolds_ne_nil _ _ hpos hsum v hv)
      (fun j hj => hmem j (splitFolds_mem_subset _ _ v hv j hj))
  obtain ⟨ms, hms, hmslen⟩ := collectMetrics_ok query qa refs _ hne
  have hmsk : ms.length = k := by
    rw [hmslen, splitFolds_length, foldSizes_length]
  refine ⟨{ fold_metrics := ms,
            avg_accuracy := listMean (ms.map Metrics.accuracy),
            avg_f1_score := listMean (ms.map Metrics.f1_score),
            avg_conference_accuracy := listMean (ms.map Metrics.conference_accuracy) },
    ?_, hmsk, ?_, ?_, ?_, ?_⟩
  · unfold cross_validate
    rw [hms]
  · exact listMean_eq_sum_div hk (by rw [List.length_map, hmsk])
  · exact listMean_eq_sum_div hk (by rw [List.length_map, hmsk])
  · exact listMean_eq_sum_div hk (by rw [List.length_map, hmsk])
  · intro v _ x hx
    exact foldTrain_not_mem refs.length v x hx

/-- Witness for C8: two reference papers, two folds. -/
theorem cross_validate_folds_spec_witness :
    ∃ res, cross_validate wQueryEmpty wQaEmpty [wPaper, wPaperPub] 2 [0, 1] = Except.ok res ∧
      res.fold_metrics.length = 2 ∧
      res.avg_accuracy = (res.fold_metrics.map Metrics.accuracy).sum / ((2 : Nat) : ℚ) ∧
      res.avg_f1_score = (res.fold_metrics.map Metrics.f1_score).sum / ((2 : Nat) : ℚ) ∧
      res.avg_conference_accuracy =
        (res.fold_metrics.map Metrics.conference_accuracy).sum / ((2 : Nat) : ℚ) ∧
      (∀ v ∈ splitFolds [0, 1] (foldSizes ([wPaper, wPaperPub] : List Paper).length 2),
        ∀ x ∈ foldTrain ([wPaper, wPaperPub] : List Paper).length v, x ∉ v) :=
  cross_validate_folds_spec wQueryEmpty wQaEmpty [wPaper, wPaperPub] 2 [0, 1]
    (by decide) (by decide) (by decide) (by decide)
